import Mathlib

/-
Verification of the coordination core of the photo-pets annotation tool.

The repository ships the React frontend; the FastAPI backend that the spec
describes (save, shared-queue resolver, edit-lock workflow) is not part of
the source tree, so those operations are modelled here directly from the
spec's component design (sections 4.1-4.6), while the admin review logic
(bulk approve), the category annotation page's save guard, and the
per-image page's validation are shallow embeddings of the shipped
JavaScript source.
-/

/-- Status a save call can write for an annotation record.  Per spec 4.1
the state machine is in_progress (implicit, unsaved) -> completed | skipped,
so stored records carry one of the two saved statuses. -/
inductive AnnStatus where
  | completed
  | skipped
deriving DecidableEq

/-- Admin review status of a completed record: null (pending) or approved. -/
inductive ReviewStatus where
  | pending
  | approved
deriving DecidableEq

/-- Modelled from the spec: the Annotation entity of section 3 (the backend
that stores it is not in the source tree).  Composite identity is the
(image, category, annotator) triple. -/
structure Ann where
  image : Nat
  category : Nat
  annotator : Nat
  selection : List Nat
  isDuplicate : Option Bool
  status : AnnStatus
  reviewStatus : ReviewStatus
deriving DecidableEq

/-- An image record: id plus the improper flag of spec 4.5. -/
structure Image where
  id : Nat
  isImproper : Bool
deriving DecidableEq

/-- Modelled from the spec: the entity store (section 3).  `images` is kept
in the shared deterministic order all annotators see; `assignments` maps
annotator id to assigned category id; `grants` holds the not-yet-consumed
approved edit grants of spec 4.4; `pendingRequests` the pending edit
requests, both keyed by (image, annotator). -/
structure Store where
  images : List Image
  annotations : List Ann
  assignments : List (Nat × Nat)
  grants : List (Nat × Nat)
  pendingRequests : List (Nat × Nat)
deriving DecidableEq

/-- Does record `a` belong to the (image, category, annotator) triple? -/
def sameTriple (a : Ann) (i c t : Nat) : Bool :=
  a.image == i && a.category == c && a.annotator == t

/-- The stored record for a triple (writes are upserts keyed on it). -/
def findAnn (s : Store) (i c t : Nat) : Option Ann :=
  s.annotations.find? (fun a => sameTriple a i c t)

/-- Is there a completed record for this exact triple? -/
def tripleCompleted (s : Store) (i c t : Nat) : Bool :=
  s.annotations.any (fun a => sameTriple a i c t && a.status == AnnStatus.completed)

/-- Modelled from the spec: the shared-completion read of 4.3 — some
annotator has a completed record for this (image, category) pair. -/
def completedByAnyone (s : Store) (i c : Nat) : Bool :=
  s.annotations.any (fun a => a.image == i && a.category == c && a.status == AnnStatus.completed)

/-- Upsert: replace any record of the same triple by `a`. -/
def setAnn (s : Store) (a : Ann) : Store :=
  { s with annotations := a :: s.annotations.filter (fun b => ! sameTriple b a.image a.category a.annotator) }

/-- Is the image flagged improper? -/
def imageImproper (s : Store) (i : Nat) : Bool :=
  s.images.any (fun im => im.id == i && im.isImproper)

/-- Categories assigned to an annotator. -/
def assignedCats (s : Store) (t : Nat) : List Nat :=
  (s.assignments.filter (fun p => p.1 == t)).map (fun p => p.2)

/-- Modelled from the spec: the base lock condition of 4.4 — all of the
annotator's assigned categories have a completed record by that annotator
for this image (and the annotator has at least one assigned category). -/
def lockedBase (s : Store) (i t : Nat) : Bool :=
  ! (assignedCats s t).isEmpty && (assignedCats s t).all (fun c => tripleCompleted s i c t)

/-- Does (image, annotator) hold an approved, not yet consumed edit grant? -/
def hasGrant (s : Store) (i t : Nat) : Bool :=
  s.grants.any (fun p => p.1 == i && p.2 == t)

/-- Locked for writing: base lock holds and no approved grant bypasses it. -/
def isLocked (s : Store) (i t : Nat) : Bool :=
  lockedBase s i t && ! hasGrant s i t

/-- Drop the edit grant of a pair (used when the lock re-arms). -/
def removeGrant (s : Store) (i t : Nat) : Store :=
  { s with grants := s.grants.filter (fun p => ! (p.1 == i && p.2 == t)) }

/-- Modelled from the spec: the automatic re-lock of 4.4 — after a write,
if the annotator has again completed all assigned categories for the
image, the lock re-arms by consuming the grant. -/
def armLock (s : Store) (i t : Nat) : Store :=
  if lockedBase s i t then removeGrant s i t else s

/-- Errors the save operation of spec 4.1 can surface. -/
inductive SaveError where
  | validationError
  | permissionError
deriving DecidableEq

/-- A fresh record as persisted by an upsert. -/
def mkAnn (i c t : Nat) (sel : List Nat) (dup : Option Bool) (st : AnnStatus) : Ann :=
  { image := i, category := c, annotator := t, selection := sel,
    isDuplicate := dup, status := st, reviewStatus := ReviewStatus.pending }

/-- Modelled from the spec: `save` of section 4.1 (the backend endpoint is
not in the source tree).  In the spec's order: ValidationError on a
completing save with empty selection; PermissionError if the image is
improper or the caller is locked without an approved grant; skip is a
no-op when the triple already holds a completed record; otherwise upsert
and re-arm the lock when all assigned categories are complete again. -/
def save (s : Store) (i c t : Nat) (sel : List Nat) (dup : Option Bool) (st : AnnStatus) :
    Except SaveError Store :=
  if st == AnnStatus.completed && sel.isEmpty then .error .validationError
  else if imageImproper s i then .error .permissionError
  else if isLocked s i t then .error .permissionError
  else if st == AnnStatus.skipped && tripleCompleted s i c t then .ok s
  else .ok (armLock (setAnn s (mkAnn i c t sel dup st)) i t)

/-- The store after a save call: a failed call commits nothing. -/
def saveState (s : Store) (i c t : Nat) (sel : List Nat) (dup : Option Bool) (st : AnnStatus) : Store :=
  match save s i c t sel dup st with
  | .ok s1 => s1
  | .error _ => s

/-- Modelled from the spec: `requestEdit` of 4.4 — Conflict on a duplicate
pending request, ValidationError on an empty reason. -/
def requestEdit (s : Store) (i t : Nat) (reason : List Char) : Except SaveError Store :=
  if reason.isEmpty then .error .validationError
  else if s.pendingRequests.any (fun p => p.1 == i && p.2 == t) then .error .permissionError
  else .ok { s with pendingRequests := (i, t) :: s.pendingRequests }

/-- Modelled from the spec: `resolveEditRequest` of 4.4 — the pending
request is consumed; approval records a one-time grant that lets saves for
the pair bypass the lock until it is consumed by `armLock`. -/
def resolveEditRequest (s : Store) (i t : Nat) (approve : Bool) : Store :=
  { s with
    pendingRequests := s.pendingRequests.filter (fun p => ! (p.1 == i && p.2 == t)),
    grants := if approve then (i, t) :: s.grants else s.grants }

/-- Modelled from the spec: the candidate image set of 4.2 — all images
not flagged improper, in the shared deterministic order. -/
def candidates (s : Store) : List Image :=
  s.images.filter (fun im => ! im.isImproper)

/-- Scan of the candidate list: position of the first image with no
completed record by any annotator for the category. -/
def scanQueue (s : Store) (c : Nat) : List Image → Option Nat
  | [] => none
  | im :: rest =>
    if completedByAnyone s im.id c then (scanQueue s c rest).map (· + 1) else some 0

/-- Modelled from the spec: `resumeIndex` of 4.2 — index of the first
candidate image with no completed record for the category by any
annotator; skipped-by-self images are revisited, so only shared completion
bypasses an image.  None is the "all done" sentinel. -/
def resumeIndex (s : Store) (_t c : Nat) : Option Nat :=
  scanQueue s c (candidates s)

/-- Modelled from the spec: `queueSize` of 4.2 — candidate images not yet
completed by anyone for the category. -/
def queueSize (s : Store) (c : Nat) : Nat :=
  ((candidates s).filter (fun im => ! completedByAnyone s im.id c)).length

/-- Reason attached to a NotFound failure of `taskAt` (spec 4.2 / 6),
distinguishing a fully completed or empty queue from a plain bad index. -/
inductive NotFoundReason where
  | allCompleted
  | indexOutOfRange
deriving DecidableEq

/-- Payload of a successful task fetch: the image at the position plus the
annotator's own existing record for pre-filling the UI. -/
structure QueueTask where
  image : Image
  currentAnn : Option Ann
deriving DecidableEq

/-- Modelled from the spec: `taskAt` of 4.2 — the image at the index in the
candidate set with the caller's own record; NotFound out of range, with a
reason separating "queue fully completed / no images" from "index out of
range". -/
def taskAt (s : Store) (t c idx : Nat) : Except NotFoundReason QueueTask :=
  match (candidates s)[idx]? with
  | some im => .ok { image := im, currentAnn := findAnn s im.id c t }
  | none => if queueSize s c == 0 then .error .allCompleted else .error .indexOutOfRange

/-- One save call, as fired by some annotator's client. -/
structure SaveOp where
  image : Nat
  category : Nat
  annotator : Nat
  selection : List Nat
  isDuplicate : Option Bool
  status : AnnStatus
deriving DecidableEq

/-- State reached after a save call (failures commit nothing). -/
def applyOp (s : Store) (op : SaveOp) : Store :=
  saveState s op.image op.category op.annotator op.selection op.isDuplicate op.status

/-- State reached after a whole sequence of save calls. -/
def applyOps (s : Store) (ops : List SaveOp) : Store :=
  ops.foldl applyOp s

/-
Admin review tab: bulk approval.  Shallow embedding of `handleBulkApprove`
and `selectedPendingCount` from the AdminDashboard source (ReviewTab): for
each selected image row and each table category, the cell with a falsy
review_status contributes one independent per-annotation approve request.
-/

/-- A completed annotation as the review table sees it: id, image,
category, and whether review_status is already approved (falsy = pending). -/
structure RAnn where
  id : Nat
  imageId : Nat
  categoryId : Nat
  approved : Bool
deriving DecidableEq

/-- The table cell for (image, category): the first annotation row keyed
there (row.annotations[String(cat.id)] of the table payload). -/
def cellFor (anns : List RAnn) (img c : Nat) : Option RAnn :=
  match anns with
  | [] => none
  | a :: rest => if a.imageId == img && a.categoryId == c then some a else cellFor rest img c

/-- Per-row inner loop of handleBulkApprove: the approve requests pushed
for one selected image, walking the table categories in order. -/
def rowReqs (anns : List RAnn) (cats : List Nat) (img : Nat) : List Nat :=
  match cats with
  | [] => []
  | c :: rest =>
    match cellFor anns img c with
    | some a => if a.approved then rowReqs anns rest img else a.id :: rowReqs anns rest img
    | none => rowReqs anns rest img

/-- Outer loop of handleBulkApprove: approve requests over all selected
image rows. -/
def pendingReqs (anns : List RAnn) (cats selected : List Nat) : List Nat :=
  match selected with
  | [] => []
  | img :: rest => rowReqs anns cats img ++ pendingReqs anns cats rest

/-- Per-row inner loop of the selectedPendingCount memo: pending cells in
one selected row. -/
def rowPendingCount (anns : List RAnn) (cats : List Nat) (img : Nat) : Nat :=
  match cats with
  | [] => 0
  | c :: rest =>
    (match cellFor anns img c with
     | some a => if a.approved then 0 else 1
     | none => 0) + rowPendingCount anns rest img

/-- The selectedPendingCount memo of ReviewTab: how many pending
annotations the selected rows contain (shown on the bulk-approve button). -/
def selectedPendingCount (anns : List RAnn) (cats selected : List Nat) : Nat :=
  match selected with
  | [] => 0
  | img :: rest => rowPendingCount anns cats img + selectedPendingCount anns cats rest

/-- Server effect of one approve call: sets review_status approved on the
one annotation row with that id. -/
def approveOne (anns : List RAnn) (i : Nat) : List RAnn :=
  anns.map (fun a => if a.id == i then { a with approved := true } else a)

/-- Server effect of a batch of independent approve calls, each an atomic
read-modify-write on its own row. -/
def applyApprovals (anns : List RAnn) (ids : List Nat) : List RAnn :=
  ids.foldl approveOne anns

/-- handleBulkApprove with every request succeeding: the resulting store
and the list of annotation ids that were approved. -/
def handleBulkApprove (anns : List RAnn) (cats selected : List Nat) : List RAnn × List Nat :=
  let reqs := pendingReqs anns cats selected
  (applyApprovals anns reqs, reqs)

/-- What the user is shown after the Promise.all of handleBulkApprove
settles: success, or the catch branch's fixed message "Some approvals
failed" — which carries no annotation ids. -/
inductive BulkReport where
  | ok
  | someFailed
deriving DecidableEq

/-- handleBulkApprove under per-request failures (`fails` says which
approve calls are rejected): requests that succeed commit independently
(no rollback), and any rejection routes to the generic alert. -/
def bulkApproveWith (anns : List RAnn) (cats selected : List Nat) (fails : Nat → Bool) :
    List RAnn × BulkReport :=
  let reqs := pendingReqs anns cats selected
  (applyApprovals anns (reqs.filter (fun i => ! fails i)),
   if reqs.any fails then .someFailed else .ok)

/-- The approve calls that were rejected in a run of handleBulkApprove. -/
def failedIds (anns : List RAnn) (cats selected : List Nat) (fails : Nat → Bool) : List Nat :=
  (pendingReqs anns cats selected).filter fails

/-- Marker function describing the net effect of a batch of approvals. -/
def markIf (ids : List Nat) (a : RAnn) : RAnn :=
  if ids.contains a.id then { a with approved := true } else a

/-
Category annotation page (AnnotationPage): the saveAnnotation re-entrancy
guard and the keyboard handler, embedded from the source.
-/

/-- The task the page currently shows: its image id and whether the
annotator's current annotation for it is already completed. -/
structure TaskInfo where
  imageId : Nat
  currentCompleted : Bool
deriving DecidableEq

/-- Client state of AnnotationPage that the save path reads: the loaded
task, the savingRef re-entrancy flag, and the selected option ids. -/
structure Client where
  task : Option TaskInfo
  savingRef : Bool
  selectedOptions : List Nat
deriving DecidableEq

/-- A PUT annotate request as issued by saveAnnotation. -/
structure SaveReq where
  imageId : Nat
  selection : List Nat
  status : AnnStatus
deriving DecidableEq

/-- saveAnnotation from AnnotationPage: returns false immediately when no
task is loaded or savingRef is set, issuing no request; otherwise issues
exactly one PUT (whose success is `netOk`) and clears savingRef in the
finally block.  Result: (returned value, requests issued, next state). -/
def saveAnn (c : Client) (netOk : Bool) (st : AnnStatus) : Bool × List SaveReq × Client :=
  match c.task with
  | none => (false, [], c)
  | some t =>
    if c.savingRef then (false, [], c)
    else (netOk, [{ imageId := t.imageId, selection := c.selectedOptions, status := st }],
          { c with savingRef := false })

/-- handleSkip's write behaviour: it saves skipped only when the current
annotation is not already completed (otherwise it only navigates). -/
def handleSkipWrites (c : Client) (netOk : Bool) : List SaveReq :=
  match c.task with
  | some t => if t.currentCompleted then [] else (saveAnn c netOk AnnStatus.skipped).2.1
  | none => (saveAnn c netOk AnnStatus.skipped).2.1

/-- The PUT requests issued by one keydown in AnnotationPage's keyboard
handler: inputs are ignored, an in-flight save (savingRef) drops the key,
ArrowRight/Enter trigger Save & Next only with a non-empty selection, and
S triggers Skip. -/
def handlerWrites (c : Client) (key : String) (targetIsInput netOk : Bool) : List SaveReq :=
  if targetIsInput then []
  else if c.savingRef then []
  else if (key == "ArrowRight" || key == "Enter") && ! c.selectedOptions.isEmpty then
    (saveAnn c netOk AnnStatus.completed).2.1
  else if key == "ArrowLeft" then []
  else if key == "s" || key == "S" then handleSkipWrites c netOk
  else []

/-
Per-image annotation page (ImageAnnotationPage): the save validation that
exempts categories completed by another annotator, embedded from the
source (validateAllCategoriesSelected / handleSave).
-/

/-- A category row of the per-image page: id, display name, and the
completed_by_other flag the backend sends. -/
structure Cat10 where
  id : Nat
  name : String
  completedByOther : Bool
deriving DecidableEq

/-- A locally pending change for a category: the selected option ids. -/
structure Pending10 where
  selectedOptionIds : List Nat
deriving DecidableEq

/-- The page data handleSave reads: category rows, can_edit, is_improper. -/
structure PageData where
  categories : List Cat10
  canEdit : Bool
  isImproper : Bool
deriving DecidableEq

/-- Component state of ImageAnnotationPage used by handleSave. -/
structure PageState where
  data : Option PageData
  pendingChanges : List (Nat × Pending10)
  saving : Bool
deriving DecidableEq

/-- pendingChanges[cat.id] lookup. -/
def lookupPending (pcs : List (Nat × Pending10)) (i : Nat) : Option Pending10 :=
  (pcs.find? (fun p => p.1 == i)).map (fun p => p.2)

/-- The loop body of validateAllCategoriesSelected: names of categories
missing a selection.  A category completed by another annotator with no
local pending entry is skipped; otherwise a missing entry or an empty
selected_option_ids list makes the category missing. -/
def missingFor (cats : List Cat10) (pcs : List (Nat × Pending10)) : List String :=
  match cats with
  | [] => []
  | cat :: rest =>
    if cat.completedByOther && (lookupPending pcs cat.id).isNone then missingFor rest pcs
    else
      match lookupPending pcs cat.id with
      | some p => if p.selectedOptionIds.isEmpty then cat.name :: missingFor rest pcs
                  else missingFor rest pcs
      | none => cat.name :: missingFor rest pcs

/-- validateAllCategoriesSelected from ImageAnnotationPage: (valid, missing). -/
def validateAllCategoriesSelected (data : Option PageData) (pcs : List (Nat × Pending10)) :
    Bool × List String :=
  match data with
  | none => (false, [])
  | some d =>
    let m := missingFor d.categories pcs
    (m.isEmpty, m)

/-- The error string handleSave sets when validation fails. -/
def errorText (m : List String) : String :=
  "Please select at least one option for: " ++ String.intercalate ", " m

/-- Outcome of one handleSave call: silently blocked, a validation error
naming the missing categories (no request issued), or the one PUT write
carrying the pending changes. -/
inductive SaveOutcome10 where
  | blocked
  | invalid (missing : List String) (message : String)
  | write (body : List (Nat × Pending10))
deriving DecidableEq

/-- handleSave from ImageAnnotationPage: bails out while saving, when the
page is not editable, or the image is improper; otherwise validates all
categories and either reports the missing ones or issues the PUT. -/
def handleSave (st : PageState) : SaveOutcome10 :=
  if st.saving then .blocked
  else
    match st.data with
    | none => .blocked
    | some d =>
      if ! d.canEdit || d.isImproper then .blocked
      else
        let v := validateAllCategoriesSelected st.data st.pendingChanges
        if ! v.1 then .invalid v.2 (errorText v.2)
        else .write st.pendingChanges

/-- The network writes an outcome of handleSave carries. -/
def writesOf : SaveOutcome10 → List (List (Nat × Pending10))
  | .write b => [b]
  | _ => []

deriving instance DecidableEq for Except

/-
Concrete stores and states used to instantiate theorems with hypotheses.
-/

/-- Two clean images, annotators 0 and 1 both assigned to category 0. -/
def s0W : Store :=
  { images := [{ id := 0, isImproper := false }, { id := 1, isImproper := false }],
    annotations := [], assignments := [(0, 0), (1, 0)], grants := [], pendingRequests := [] }

/-- s0W after annotator 0 completes image 0 in category 0. -/
def s1W : Store := saveState s0W 0 0 0 [5] none AnnStatus.completed

/-- One image, annotator 0 assigned category 0 and done with it: locked. -/
def sC2 : Store :=
  { images := [{ id := 0, isImproper := false }],
    annotations := [{ image := 0, category := 0, annotator := 0, selection := [1],
                      isDuplicate := none, status := AnnStatus.completed,
                      reviewStatus := ReviewStatus.pending }],
    assignments := [(0, 0)], grants := [], pendingRequests := [] }

/-- One completed record (0,0,0); annotator 0 is not locked (category 1 open). -/
def sC3 : Store :=
  { images := [{ id := 0, isImproper := false }],
    annotations := [{ image := 0, category := 0, annotator := 0, selection := [2],
                      isDuplicate := none, status := AnnStatus.completed,
                      reviewStatus := ReviewStatus.pending }],
    assignments := [(0, 0), (0, 1)], grants := [], pendingRequests := [] }

/-- The completed record stored in sC3. -/
def aC3 : Ann :=
  { image := 0, category := 0, annotator := 0, selection := [2], isDuplicate := none,
    status := AnnStatus.completed, reviewStatus := ReviewStatus.pending }

/-- A single improperly-flagged image. -/
def sC4 : Store :=
  { images := [{ id := 0, isImproper := true }], annotations := [], assignments := [],
    grants := [], pendingRequests := [] }

/-- A single clean image and nothing annotated. -/
def sC8 : Store :=
  { images := [{ id := 0, isImproper := false }], annotations := [], assignments := [],
    grants := [], pendingRequests := [] }

/-- Two pending review rows under two different images. -/
def annsC5 : List RAnn :=
  [{ id := 1, imageId := 10, categoryId := 0, approved := false },
   { id := 2, imageId := 20, categoryId := 0, approved := false }]

/-- A client with a loaded task and a save in flight (savingRef set). -/
def cW : Client :=
  { task := some { imageId := 7, currentCompleted := false }, savingRef := true,
    selectedOptions := [1] }

/-- Page data: category 0 completed by another annotator, category 1 not. -/
def dW : PageData :=
  { categories := [{ id := 0, name := "A", completedByOther := true },
                   { id := 1, name := "B", completedByOther := false }],
    canEdit := true, isImproper := false }

/-- Page state: category 0 completed by another annotator with no local
changes, category 1 locally selected. -/
def stW : PageState :=
  { data := some dW, pendingChanges := [(1, { selectedOptionIds := [3] })], saving := false }

/-- Same page with no local selection for category 1. -/
def stW2 : PageState :=
  { data := some dW, pendingChanges := [], saving := false }

/-
General list facts and store-preservation lemmas.
-/

theorem filterLengthMono {α : Type} (p q : α → Bool) :
    ∀ l : List α, (∀ x ∈ l, p x = true → q x = true) →
      (l.filter p).length ≤ (l.filter q).length := by
  intro l
  induction l with
  | nil => intro _; simp
  | cons x xs ih =>
    intro h
    have hxs := ih (fun y hy hpy => h y (List.mem_cons_of_mem _ hy) hpy)
    by_cases hpx : p x = true
    · have hqx : q x = true := h x (List.mem_cons_self _ _) hpx
      simp only [List.filter_cons, hpx, hqx, if_pos, List.length_cons]
      simpa using hxs
    · have hpx2 : p x = false := Bool.not_eq_true _ |>.mp hpx
      by_cases hqx : q x = true
      · simp only [List.filter_cons, hpx2, hqx]
        simp only [Bool.false_eq_true, if_false, if_pos, List.length_cons]
        exact Nat.le_succ_of_le hxs
      · have hqx2 : q x = false := Bool.not_eq_true _ |>.mp hqx
        simp only [List.filter_cons, hpx2, hqx2, Bool.false_eq_true, if_false]
        exact hxs

theorem anyFilterNot {α : Type} (p : α → Bool) (l : List α) :
    (l.filter (fun x => ! p x)).any p = false := by
  induction l with
  | nil => rfl
  | cons x xs ih =>
    by_cases hx : p x = true
    · simp [List.filter_cons, hx, ih]
    · have hx2 : p x = false := Bool.not_eq_true _ |>.mp hx
      simp [List.filter_cons, hx2, ih]

theorem annotationList_armLock (s : Store) (i t : Nat) :
    (armLock s i t).annotations = s.annotations := by
  unfold armLock removeGrant
  split <;> rfl

theorem imageList_armLock (s : Store) (i t : Nat) :
    (armLock s i t).images = s.images := by
  unfold armLock removeGrant
  split <;> rfl

theorem assignmentList_armLock (s : Store) (i t : Nat) :
    (armLock s i t).assignments = s.assignments := by
  unfold armLock removeGrant
  split <;> rfl

/-- A save either commits nothing, or upserts the record and re-arms the
lock; in the latter case, a skipped write implies the triple held no
completed record. -/
theorem saveState_cases (s : Store) (i c t : Nat) (sel : List Nat) (dup : Option Bool)
    (st : AnnStatus) :
    saveState s i c t sel dup st = s ∨
    (saveState s i c t sel dup st = armLock (setAnn s (mkAnn i c t sel dup st)) i t ∧
     (st = AnnStatus.skipped → tripleCompleted s i c t = false)) := by
  unfold saveState save
  by_cases h1 : (st == AnnStatus.completed && sel.isEmpty) = true
  · left; simp [h1]
  · by_cases h2 : imageImproper s i = true
    · left; simp [h1, h2]
    · by_cases h3 : isLocked s i t = true
      · left; simp [h1, h2, h3]
      · by_cases h4 : (st == AnnStatus.skipped && tripleCompleted s i c t) = true
        · left; simp [h1, h2, h3, h4]
        · right
          constructor
          · simp [h1, h2, h3, h4]
          · intro hst
            subst hst
            simp at h4
            exact h4

/-- An upsert keeps any `any`-witness whose predicate survives the triple
replacement: if the removed records could only witness the predicate when
the fresh record does too, monotonicity holds. -/
theorem any_setAnn_mono (s : Store) (a : Ann) (P : Ann → Bool)
    (hP : ∀ b ∈ s.annotations, P b = true →
       sameTriple b a.image a.category a.annotator = true → P a = true)
    (h : s.annotations.any P = true) : (setAnn s a).annotations.any P = true := by
  rw [List.any_eq_true] at h
  obtain ⟨b, hb, hPb⟩ := h
  rw [List.any_eq_true]
  by_cases hsame : sameTriple b a.image a.category a.annotator = true
  · exact ⟨a, by simp [setAnn], hP b hb hPb hsame⟩
  · refine ⟨b, ?_, hPb⟩
    simp only [setAnn, List.mem_cons, List.mem_filter]
    right
    exact ⟨hb, by simpa using hsame⟩

theorem imageList_saveState (s : Store) (i c t : Nat) (sel : List Nat) (dup : Option Bool)
    (st : AnnStatus) : (saveState s i c t sel dup st).images = s.images := by
  rcases saveState_cases s i c t sel dup st with heq | ⟨heq, _⟩
  · rw [heq]
  · rw [heq, imageList_armLock]
    rfl

/-- Shared completion never regresses under any save call: a completing
save adds a completed record, a skipped save only ever replaces a
not-completed record of its own triple. -/
theorem completedByAnyone_saveState_mono (s : Store) (i c t : Nat) (sel : List Nat)
    (dup : Option Bool) (st : AnnStatus) (i2 c2 : Nat)
    (h : completedByAnyone s i2 c2 = true) :
    completedByAnyone (saveState s i c t sel dup st) i2 c2 = true := by
  rcases saveState_cases s i c t sel dup st with heq | ⟨heq, hguard⟩
  · rw [heq]; exact h
  · rw [heq]
    unfold completedByAnyone at h ⊢
    rw [annotationList_armLock]
    apply any_setAnn_mono s (mkAnn i c t sel dup st) _ _ h
    intro b hb hPb hsame
    simp only [mkAnn, sameTriple, Bool.and_eq_true, beq_iff_eq] at hsame
    obtain ⟨⟨hbi, hbc⟩, hbt⟩ := hsame
    simp only [Bool.and_eq_true, beq_iff_eq] at hPb
    obtain ⟨⟨hb2i, hb2c⟩, hbs⟩ := hPb
    have hst : st = AnnStatus.completed := by
      cases hcase : st
      · rfl
      · exfalso
        have htc : tripleCompleted s i c t = true := by
          unfold tripleCompleted
          rw [List.any_eq_true]
          refine ⟨b, hb, ?_⟩
          simp [sameTriple, hbi, hbc, hbt, hbs]
        rw [hguard hcase] at htc
        exact Bool.false_ne_true htc
    simp only [mkAnn, Bool.and_eq_true, beq_iff_eq]
    exact ⟨⟨by rw [← hbi]; exact hb2i, by rw [← hbc]; exact hb2c⟩, by simp [hst]⟩

theorem imageList_applyOps (s : Store) (ops : List SaveOp) :
    (applyOps s ops).images = s.images := by
  induction ops generalizing s with
  | nil => rfl
  | cons op rest ih =>
    show (applyOps (applyOp s op) rest).images = s.images
    rw [ih, applyOp, imageList_saveState]

theorem completedByAnyone_applyOps_mono (s : Store) (ops : List SaveOp) (i c : Nat)
    (h : completedByAnyone s i c = true) :
    completedByAnyone (applyOps s ops) i c = true := by
  induction ops generalizing s with
  | nil => exact h
  | cons op rest ih =>
    show completedByAnyone (applyOps (applyOp s op) rest) i c = true
    exact ih _ (completedByAnyone_saveState_mono _ _ _ _ _ _ _ _ _ h)

/-- What a successful scan means: the returned position holds the first
candidate not yet completed by anyone for the category, and everything
before it is completed. -/
theorem scanQueue_spec (s : Store) (c : Nat) :
    ∀ (l : List Image) (j : Nat), scanQueue s c l = some j →
      ∃ im, l[j]? = some im ∧ completedByAnyone s im.id c = false ∧
        ∀ i im2, i < j → l[i]? = some im2 → completedByAnyone s im2.id c = true := by
  intro l
  induction l with
  | nil => intro j h; simp [scanQueue] at h
  | cons im rest ih =>
    intro j h
    unfold scanQueue at h
    by_cases hc : completedByAnyone s im.id c = true
    · rw [if_pos hc] at h
      cases hs : scanQueue s c rest with
      | none => rw [hs] at h; simp at h
      | some j2 =>
        rw [hs] at h
        simp only [Option.map_some'] at h
        have hj : j = j2 + 1 := by
          have := Option.some.inj h
          omega
        subst hj
        obtain ⟨im2, him2, hnc, hfirst⟩ := ih j2 hs
        refine ⟨im2, by simpa using him2, hnc, ?_⟩
        intro i im3 hi him3
        cases i with
        | zero =>
          simp only [List.getElem?_cons_zero, Option.some.injEq] at him3
          rw [← him3]; exact hc
        | succ i2 =>
          rw [List.getElem?_cons_succ] at him3
          exact hfirst i2 im3 (by omega) him3
    · rw [if_neg hc] at h
      have hj : j = 0 := (Option.some.inj h).symm
      subst hj
      refine ⟨im, by simp, by simpa using hc, ?_⟩
      intro i im2 hi
      omega

/-- Scans only read shared completion, so stores agreeing on it for the
category scan identically. -/
theorem scanQueue_congr (s1 s2 : Store) (c : Nat)
    (h : ∀ i, completedByAnyone s1 i c = completedByAnyone s2 i c) :
    ∀ l : List Image, scanQueue s1 c l = scanQueue s2 c l := by
  intro l
  induction l with
  | nil => rfl
  | cons im rest ih =>
    unfold scanQueue
    rw [h im.id, ih]

theorem completedByAnyone_armLock (s : Store) (i t i2 c2 : Nat) :
    completedByAnyone (armLock s i t) i2 c2 = completedByAnyone s i2 c2 := by
  unfold completedByAnyone
  rw [annotationList_armLock]

/-- Upserting a skipped record over a triple that holds no completed record
changes shared completion nowhere. -/
theorem completedByAnyone_setAnn_skipped (s : Store) (a : Ann)
    (hs : a.status = AnnStatus.skipped)
    (hguard : tripleCompleted s a.image a.category a.annotator = false) (i c : Nat) :
    completedByAnyone (setAnn s a) i c = completedByAnyone s i c := by
  cases hcb : completedByAnyone s i c with
  | true =>
    unfold completedByAnyone at hcb ⊢
    apply any_setAnn_mono s a _ _ hcb
    intro b hb hPb hsame
    exfalso
    simp only [sameTriple, Bool.and_eq_true, beq_iff_eq] at hsame
    obtain ⟨⟨h1, h2⟩, h3⟩ := hsame
    simp only [Bool.and_eq_true, beq_iff_eq] at hPb
    obtain ⟨⟨hb1, hb2⟩, hb3⟩ := hPb
    have htc : tripleCompleted s a.image a.category a.annotator = true := by
      unfold tripleCompleted
      rw [List.any_eq_true]
      exact ⟨b, hb, by simp [sameTriple, h1, h2, h3, hb3]⟩
    rw [hguard] at htc
    exact Bool.false_ne_true htc
  | false =>
    cases hcb2 : completedByAnyone (setAnn s a) i c with
    | false => rfl
    | true =>
      exfalso
      unfold completedByAnyone at hcb2
      rw [List.any_eq_true] at hcb2
      obtain ⟨x, hx, hPx⟩ := hcb2
      simp only [setAnn, List.mem_cons, List.mem_filter] at hx
      rcases hx with hxa | ⟨hxs, _⟩
      · subst hxa
        simp [hs] at hPx
      · have hc2 : completedByAnyone s i c = true := by
          unfold completedByAnyone
          rw [List.any_eq_true]
          exact ⟨x, hxs, hPx⟩
        rw [hcb] at hc2
        exact Bool.false_ne_true hc2

/-- A save that reports ok commits exactly `saveState`. -/
theorem saveState_of_ok (s : Store) (i c t : Nat) (sel : List Nat) (dup : Option Bool)
    (st : AnnStatus) (s1 : Store) (h : save s i c t sel dup st = .ok s1) :
    saveState s i c t sel dup st = s1 := by
  unfold saveState
  rw [h]

/-- A successful completing save leaves its (image, category) pair
completed-by-anyone. -/
theorem save_completed_ok (s : Store) (i c t : Nat) (sel : List Nat) (dup : Option Bool)
    (s1 : Store) (h : save s i c t sel dup AnnStatus.completed = .ok s1) :
    completedByAnyone s1 i c = true := by
  unfold save at h
  by_cases h1 : (AnnStatus.completed == AnnStatus.completed && sel.isEmpty) = true
  · rw [if_pos h1] at h
    exact Except.noConfusion h
  · rw [if_neg h1] at h
    by_cases h2 : imageImproper s i = true
    · rw [if_pos h2] at h
      exact Except.noConfusion h
    · rw [if_neg h2] at h
      by_cases h3 : isLocked s i t = true
      · rw [if_pos h3] at h
        exact Except.noConfusion h
      · rw [if_neg h3] at h
        have h4 : ¬ ((AnnStatus.completed == AnnStatus.skipped && tripleCompleted s i c t) = true) := by
          simp
        rw [if_neg h4] at h
        rw [← Except.ok.inj h]
        rw [completedByAnyone_armLock]
        unfold completedByAnyone
        rw [List.any_eq_true]
        exact ⟨mkAnn i c t sel dup AnnStatus.completed, by simp [setAnn], by simp [mkAnn]⟩

/-- A successful skipped save changes shared completion nowhere. -/
theorem save_skipped_ok_completed (s : Store) (i c t : Nat) (sel : List Nat)
    (dup : Option Bool) (s1 : Store) (h : save s i c t sel dup AnnStatus.skipped = .ok s1)
    (i2 c2 : Nat) : completedByAnyone s1 i2 c2 = completedByAnyone s i2 c2 := by
  unfold save at h
  have h1 : ¬ ((AnnStatus.skipped == AnnStatus.completed && sel.isEmpty) = true) := by simp
  rw [if_neg h1] at h
  by_cases h2 : imageImproper s i = true
  · rw [if_pos h2] at h
    exact Except.noConfusion h
  · rw [if_neg h2] at h
    by_cases h3 : isLocked s i t = true
    · rw [if_pos h3] at h
      exact Except.noConfusion h
    · rw [if_neg h3] at h
      by_cases h4 : (AnnStatus.skipped == AnnStatus.skipped && tripleCompleted s i c t) = true
      · rw [if_pos h4] at h
        rw [← Except.ok.inj h]
      · rw [if_neg h4] at h
        rw [← Except.ok.inj h]
        rw [completedByAnyone_armLock]
        have hguard : tripleCompleted s i c t = false := by
          simp at h4
          exact h4
        exact completedByAnyone_setAnn_skipped s (mkAnn i c t sel dup AnnStatus.skipped) rfl
          (by simpa [mkAnn] using hguard) i2 c2

theorem save_ok_images (s : Store) (i c t : Nat) (sel : List Nat) (dup : Option Bool)
    (st : AnnStatus) (s1 : Store) (h : save s i c t sel dup st = .ok s1) :
    s1.images = s.images := by
  rw [← saveState_of_ok s i c t sel dup st s1 h]
  exact imageList_saveState s i c t sel dup st

/-- C1.  `resumeIndex` scans the candidate set (images not flagged
improper) in the shared order and returns the position of the first image
with no completed record for the category by any annotator; once any
annotator's completing save for image I in category C succeeds, no later
sequence of saves can make `resumeIndex` (for any annotator) point at I
again for C; an annotator's own successful skipped save leaves every
`resumeIndex` unchanged, so skipped images are revisited, not bypassed. -/
theorem c1_resumeIndex_shared_queue (s : Store) :
    (∀ t c j, resumeIndex s t c = some j →
      ∃ im, (candidates s)[j]? = some im ∧ completedByAnyone s im.id c = false ∧
        ∀ i im2, i < j → (candidates s)[i]? = some im2 →
          completedByAnyone s im2.id c = true) ∧
    (∀ i c t sel dup s1, save s i c t sel dup AnnStatus.completed = .ok s1 →
      ∀ ops t2 j im, resumeIndex (applyOps s1 ops) t2 c = some j →
        (candidates (applyOps s1 ops))[j]? = some im → im.id ≠ i) ∧
    (∀ i c t sel dup s1, save s i c t sel dup AnnStatus.skipped = .ok s1 →
      ∀ t2 c2, resumeIndex s1 t2 c2 = resumeIndex s t2 c2) := by
  refine ⟨?_, ?_, ?_⟩
  · intro t c j h
    exact scanQueue_spec s c (candidates s) j h
  · intro i c t sel dup s1 hsave ops t2 j im hresume hat
    have hdone : completedByAnyone (applyOps s1 ops) i c = true :=
      completedByAnyone_applyOps_mono s1 ops i c (save_completed_ok s i c t sel dup s1 hsave)
    obtain ⟨im2, him2, hnc, _⟩ := scanQueue_spec (applyOps s1 ops) c _ j hresume
    rw [hat] at him2
    have heq : im = im2 := Option.some.inj him2
    intro hid
    rw [← heq, hid, hdone] at hnc
    simp at hnc
  · intro i c t sel dup s1 hsave t2 c2
    unfold resumeIndex
    have hcand : candidates s1 = candidates s := by
      unfold candidates
      rw [save_ok_images s i c t sel dup AnnStatus.skipped s1 hsave]
    rw [hcand]
    exact scanQueue_congr s1 s c2
      (fun i2 => save_skipped_ok_completed s i c t sel dup s1 hsave i2 c2) (candidates s)

/-- C7.  For every category, `queueSize` never increases as a result of a
save call with status completed by any annotator (failed saves commit
nothing, successful ones only add shared completion). -/
theorem c7_queueSize_never_increases (s : Store) (i c t : Nat) (sel : List Nat)
    (dup : Option Bool) (c2 : Nat) :
    queueSize (saveState s i c t sel dup AnnStatus.completed) c2 ≤ queueSize s c2 := by
  unfold queueSize
  have hcand : candidates (saveState s i c t sel dup AnnStatus.completed) = candidates s := by
    unfold candidates
    rw [imageList_saveState]
  rw [hcand]
  apply filterLengthMono
  intro x hx hpx
  cases hcb : completedByAnyone s x.id c2 with
  | false => simp
  | true =>
    exfalso
    have hmono := completedByAnyone_saveState_mono s i c t sel dup AnnStatus.completed x.id c2 hcb
    rw [hmono] at hpx
    simp at hpx

/-- C3.  A save with status skipped against a triple whose stored record is
completed is a no-op: the store is unchanged and the record keeps status
completed (the skip path never downgrades completed work). -/
theorem c3_skip_never_downgrades (s : Store) (i c t : Nat) (sel : List Nat)
    (dup : Option Bool) (a : Ann) (h1 : findAnn s i c t = some a)
    (h2 : a.status = AnnStatus.completed) :
    saveState s i c t sel dup AnnStatus.skipped = s ∧
    findAnn (saveState s i c t sel dup AnnStatus.skipped) i c t = some a ∧
    ∃ b, findAnn (saveState s i c t sel dup AnnStatus.skipped) i c t = some b ∧
      b.status = AnnStatus.completed := by
  have htc : tripleCompleted s i c t = true := by
    unfold findAnn at h1
    have hmem := List.mem_of_find?_eq_some h1
    have hp := List.find?_some h1
    unfold tripleCompleted
    rw [List.any_eq_true]
    exact ⟨a, hmem, by simp [hp, h2]⟩
  have hss : saveState s i c t sel dup AnnStatus.skipped = s := by
    unfold saveState save
    have hA : ¬((AnnStatus.skipped == AnnStatus.completed && sel.isEmpty) = true) := by simp
    rw [if_neg hA]
    by_cases hB : imageImproper s i = true
    · rw [if_pos hB]
    · rw [if_neg hB]
      by_cases hC : isLocked s i t = true
      · rw [if_pos hC]
      · rw [if_neg hC, if_pos (by simp [htc])]
  exact ⟨hss, by rw [hss]; exact h1, ⟨a, by rw [hss]; exact h1, h2⟩⟩

/-- C3 witness: on a concrete store holding a completed record for
(0,0,0), a skipped save for the same triple leaves the store untouched. -/
theorem c3_witness : saveState sC3 0 0 0 [7] none AnnStatus.skipped = sC3 :=
  (c3_skip_never_downgrades sC3 0 0 0 [7] none aC3 (by decide) rfl).1

/-- C4 counterexample: with a non-empty selection the claim says the
completing save succeeds, but on an image flagged improper it fails with
PermissionError. -/
theorem c4_counterexample :
    ([5] : List Nat) ≠ [] ∧
    save sC4 0 0 0 [5] none AnnStatus.completed = Except.error SaveError.permissionError := by
  decide

/-- C4 (amended).  A completing save with empty selection always fails
ValidationError; with at least one option it succeeds provided the image
is not improper and the caller is not locked without a grant. -/
theorem c4_validation_and_success :
    (∀ (s : Store) (i c t : Nat) (dup : Option Bool),
       save s i c t [] dup AnnStatus.completed = Except.error SaveError.validationError) ∧
    (∀ (s : Store) (i c t : Nat) (sel : List Nat) (dup : Option Bool),
       sel ≠ [] → imageImproper s i = false → isLocked s i t = false →
       ∃ s1, save s i c t sel dup AnnStatus.completed = Except.ok s1) := by
  constructor
  · intro s i c t dup
    unfold save
    rw [if_pos (by decide)]
  · intro s i c t sel dup hsel himp hlock
    unfold save
    have h1 : ¬((AnnStatus.completed == AnnStatus.completed && sel.isEmpty) = true) := by
      intro hcon
      simp only [Bool.and_eq_true, beq_iff_eq] at hcon
      cases sel with
      | nil => exact hsel rfl
      | cons a l => simp at hcon
    rw [if_neg h1, if_neg (by rw [himp]; simp), if_neg (by rw [hlock]; simp),
      if_neg (by simp)]
    exact ⟨_, rfl⟩

/-- C8.  When the index lies beyond the candidate set, `taskAt` fails with
a NotFound carrying a reason that is `allCompleted` exactly when the queue
has size zero (fully completed or no images), and `indexOutOfRange`
otherwise — the caller can tell the two apart. -/
theorem c8_taskAt_distinguishes (s : Store) (t c idx : Nat)
    (h : (candidates s).length ≤ idx) :
    ∃ r, taskAt s t c idx = Except.error r ∧
      (r = NotFoundReason.allCompleted ↔ queueSize s c = 0) := by
  unfold taskAt
  have hnone : (candidates s)[idx]? = none := by
    rw [List.getElem?_eq_none_iff]
    exact h
  rw [hnone]
  by_cases hq : (queueSize s c == 0) = true
  · rw [if_pos hq]
    exact ⟨NotFoundReason.allCompleted, rfl, by simp [show queueSize s c = 0 by simpa using hq]⟩
  · rw [if_neg hq]
    refine ⟨NotFoundReason.indexOutOfRange, rfl, ?_⟩
    constructor
    · intro hcon
      exact NotFoundReason.noConfusion hcon
    · intro h0
      exact absurd (by simp [h0] : (queueSize s c == 0) = true) hq

/-- C8 witness: index 5 on a one-image store with nothing completed gives
the out-of-range reason, and the reason test separates it from a completed
queue. -/
theorem c8_witness : ∃ r, taskAt sC8 0 0 5 = Except.error r ∧
    (r = NotFoundReason.allCompleted ↔ queueSize sC8 0 = 0) :=
  c8_taskAt_distinguishes sC8 0 0 5 (by decide)

/-- C9.  While a save is in flight (savingRef set), saveAnnotation returns
false, issues no network write and leaves the client unchanged, and every
keyboard shortcut dispatch issues no write either — so this client has at
most one annotation save request in flight. -/
theorem c9_saving_ref_guard (c : Client) (h : c.savingRef = true) :
    (∀ netOk st, saveAnn c netOk st = (false, [], c)) ∧
    (∀ key tIn netOk, handlerWrites c key tIn netOk = []) := by
  constructor
  · intro netOk st
    cases htask : c.task with
    | none => simp [saveAnn, htask]
    | some t => simp [saveAnn, htask, h]
  · intro key tIn netOk
    simp [handlerWrites, h]

/-- C9 witness: with savingRef set on a loaded task, a completing
saveAnnotation call returns false and issues nothing. -/
theorem c9_witness : saveAnn cW true AnnStatus.completed = (false, [], cW) :=
  (c9_saving_ref_guard cW rfl).1 true AnnStatus.completed

/-- Any save against a locked (image, annotator) pair that passes input
validation fails with PermissionError. -/
theorem save_locked_fails (s : Store) (i t : Nat) (h : isLocked s i t = true) :
    ∀ c sel dup st, (st = AnnStatus.completed → sel ≠ []) →
      save s i c t sel dup st = Except.error SaveError.permissionError := by
  intro c sel dup st hv
  unfold save
  have h1 : ¬((st == AnnStatus.completed && sel.isEmpty) = true) := by
    intro hcon
    simp only [Bool.and_eq_true, beq_iff_eq] at hcon
    obtain ⟨hst, hemp⟩ := hcon
    have hne := hv hst
    cases sel with
    | nil => exact hne rfl
    | cons a l => simp at hemp
  rw [if_neg h1]
  by_cases h2 : imageImproper s i = true
  · rw [if_pos h2]
  · rw [if_neg h2, if_pos h]

theorem lockedBase_resolveEditRequest (s : Store) (i t : Nat) (ap : Bool) (i2 t2 : Nat) :
    lockedBase (resolveEditRequest s i t ap) i2 t2 = lockedBase s i2 t2 := rfl

theorem imageImproper_resolveEditRequest (s : Store) (i t : Nat) (ap : Bool) (i2 : Nat) :
    imageImproper (resolveEditRequest s i t ap) i2 = imageImproper s i2 := rfl

theorem hasGrant_resolveEditRequest_true (s : Store) (i t : Nat) :
    hasGrant (resolveEditRequest s i t true) i t = true := by
  simp [hasGrant, resolveEditRequest]

/-- Upserting a completed record by the same annotator on the same image
preserves the base lock. -/
theorem tripleCompleted_setAnn_mono (s : Store) (a : Ann) (i c t : Nat)
    (hst : a.status = AnnStatus.completed) (h : tripleCompleted s i c t = true) :
    tripleCompleted (setAnn s a) i c t = true := by
  unfold tripleCompleted at h ⊢
  apply any_setAnn_mono s a _ _ h
  intro b hb hPb hsame
  simp only [sameTriple, Bool.and_eq_true, beq_iff_eq] at hsame hPb
  obtain ⟨⟨h1, h2⟩, h3⟩ := hsame
  obtain ⟨⟨⟨hb1, hb2⟩, hb3⟩, _⟩ := hPb
  simp only [sameTriple, Bool.and_eq_true, beq_iff_eq]
  refine ⟨⟨⟨?_, ?_⟩, ?_⟩, by simp [hst]⟩
  · rw [← h1]; exact hb1
  · rw [← h2]; exact hb2
  · rw [← h3]; exact hb3

theorem lockedBase_setAnn_completed (s : Store) (a : Ann)
    (hst : a.status = AnnStatus.completed)
    (h : lockedBase s a.image a.annotator = true) :
    lockedBase (setAnn s a) a.image a.annotator = true := by
  unfold lockedBase at h ⊢
  have hassign : assignedCats (setAnn s a) a.annotator = assignedCats s a.annotator := rfl
  rw [hassign]
  simp only [Bool.and_eq_true] at h ⊢
  obtain ⟨hne, hall⟩ := h
  refine ⟨hne, ?_⟩
  rw [List.all_eq_true] at hall ⊢
  intro c hc
  exact tripleCompleted_setAnn_mono s a a.image c a.annotator hst (hall c hc)

theorem lockedBase_armLock (s : Store) (i t i2 t2 : Nat) :
    lockedBase (armLock s i t) i2 t2 = lockedBase s i2 t2 := by
  unfold armLock
  split <;> rfl

theorem hasGrant_armLock_locked (s : Store) (i t : Nat) (h : lockedBase s i t = true) :
    hasGrant (armLock s i t) i t = false := by
  unfold armLock
  rw [if_pos h]
  unfold hasGrant removeGrant
  exact anyFilterNot _ _

/-- C2 counterexample: on a locked pair, a completing save with an empty
selection fails with ValidationError, not the PermissionError the claim
asserts for every subsequent save. -/
theorem c2_counterexample :
    lockedBase sC2 0 0 = true ∧ hasGrant sC2 0 0 = false ∧
    save sC2 0 0 0 [] none AnnStatus.completed = Except.error SaveError.validationError ∧
    save sC2 0 0 0 [] none AnnStatus.completed ≠ Except.error SaveError.permissionError := by
  decide

/-- C2 (amended).  Once annotator X has completed all assigned categories
for image I and holds no grant, every save for (I, any category, X) that
passes input validation (a completing save needs a non-empty selection)
fails with PermissionError; after an edit request for (I, X) is approved,
one completing save succeeds, and in the resulting store the lock has
re-armed automatically: the pair is locked again, the grant is consumed,
and further validated saves fail with PermissionError with no new request
needed. -/
theorem c2_lock_until_approval (s : Store) (i t : Nat)
    (hlock : lockedBase s i t = true) (hng : hasGrant s i t = false) :
    (∀ c sel dup st, (st = AnnStatus.completed → sel ≠ []) →
       save s i c t sel dup st = Except.error SaveError.permissionError) ∧
    (∀ c sel dup, sel ≠ [] → imageImproper s i = false →
       ∃ s2, save (resolveEditRequest s i t true) i c t sel dup AnnStatus.completed =
           Except.ok s2 ∧
         lockedBase s2 i t = true ∧ hasGrant s2 i t = false ∧
         ∀ c2 sel2 dup2 st2, (st2 = AnnStatus.completed → sel2 ≠ []) →
           save s2 i c2 t sel2 dup2 st2 = Except.error SaveError.permissionError) := by
  constructor
  · exact save_locked_fails s i t (by simp [isLocked, hlock, hng])
  · intro c sel dup hsel himp
    have hlock1 : lockedBase (resolveEditRequest s i t true) i t = true := by
      rw [lockedBase_resolveEditRequest]
      exact hlock
    have hg1 : hasGrant (resolveEditRequest s i t true) i t = true :=
      hasGrant_resolveEditRequest_true s i t
    have himp1 : imageImproper (resolveEditRequest s i t true) i = false := by
      rw [imageImproper_resolveEditRequest]
      exact himp
    have hnl : isLocked (resolveEditRequest s i t true) i t = false := by
      simp [isLocked, hlock1, hg1]
    have hl1 : lockedBase
        (setAnn (resolveEditRequest s i t true) (mkAnn i c t sel dup AnnStatus.completed))
        i t = true :=
      lockedBase_setAnn_completed (resolveEditRequest s i t true)
        (mkAnn i c t sel dup AnnStatus.completed) rfl hlock1
    have hl2 : lockedBase
        (armLock (setAnn (resolveEditRequest s i t true)
          (mkAnn i c t sel dup AnnStatus.completed)) i t) i t = true := by
      rw [lockedBase_armLock]
      exact hl1
    have hg2 : hasGrant
        (armLock (setAnn (resolveEditRequest s i t true)
          (mkAnn i c t sel dup AnnStatus.completed)) i t) i t = false :=
      hasGrant_armLock_locked _ _ _ hl1
    refine ⟨_, ?_, hl2, hg2, save_locked_fails _ _ _ (by simp [isLocked, hl2, hg2])⟩
    unfold save
    have h1 : ¬((AnnStatus.completed == AnnStatus.completed && sel.isEmpty) = true) := by
      intro hcon
      simp only [Bool.and_eq_true, beq_iff_eq] at hcon
      cases sel with
      | nil => exact hsel rfl
      | cons a l => simp at hcon
    rw [if_neg h1, if_neg (by rw [himp1]; simp), if_neg (by rw [hnl]; simp),
      if_neg (by simp)]

/-- C2 witness: on the concrete locked store, a validated (skipped) save is
refused with PermissionError. -/
theorem c2_witness : save sC2 0 5 0 [3] none AnnStatus.skipped =
    Except.error SaveError.permissionError :=
  (c2_lock_until_approval sC2 0 0 (by decide) (by decide)).1 5 [3] none AnnStatus.skipped
    (by intro hcon; exact AnnStatus.noConfusion hcon)

theorem natContainsOfMem (l : List Nat) (x : Nat) (h : x ∈ l) : l.contains x = true := by
  induction l with
  | nil => cases h
  | cons a rest ih =>
    rcases List.mem_cons.mp h with rfl | hmem
    · simp [List.contains_cons]
    · simp [List.contains_cons]
      exact Or.inr hmem

/-- Marking an already-approved row changes nothing. -/
theorem markIf_approved_eq (ids : List Nat) (a : RAnn) (h : a.approved = true) :
    markIf ids a = a := by
  unfold markIf
  split
  · cases a
    simp only at h
    rw [h]
  · rfl

/-- A batch of independent approvals is the pointwise marking of the rows
whose ids occur in the batch. -/
theorem applyApprovals_char (ids : List Nat) (anns : List RAnn) :
    applyApprovals anns ids = anns.map (markIf ids) := by
  induction ids generalizing anns with
  | nil =>
    show anns = anns.map (markIf [])
    have h : ∀ a ∈ anns, a = markIf [] a := by
      intro a _
      rfl
    rw [List.map_congr_left (fun a ha => (h a ha).symm)]
    exact (List.map_id anns).symm
  | cons i ids ih =>
    show applyApprovals (approveOne anns i) ids = anns.map (markIf (i :: ids))
    rw [ih]
    unfold approveOne
    rw [List.map_map]
    apply List.map_congr_left
    intro a _
    show markIf ids (if a.id == i then { a with approved := true } else a) = markIf (i :: ids) a
    by_cases hid : (a.id == i) = true
    · rw [if_pos hid]
      unfold markIf
      have hcc : (i :: ids).contains a.id = true := by
        simp [List.contains_cons]
        exact Or.inl (by simpa using hid)
      rw [hcc]
      simp only [if_true]
      split <;> rfl
    · rw [if_neg hid]
      unfold markIf
      have hb : (a.id == i) = false := Bool.not_eq_true _ |>.mp hid
      have hcc : (i :: ids).contains a.id = ids.contains a.id := by
        simp [List.contains_cons]
        intro hcon
        exact absurd hcon (by simpa using hb)
      rw [hcc]

/-- The bulk-approve request list for one row is as long as the pending
count the button shows for that row. -/
theorem rowReqs_length (anns : List RAnn) (cats : List Nat) (img : Nat) :
    (rowReqs anns cats img).length = rowPendingCount anns cats img := by
  induction cats with
  | nil => rfl
  | cons c rest ih =>
    unfold rowReqs rowPendingCount
    cases hc : cellFor anns img c with
    | none => simpa using ih
    | some a =>
      by_cases ha : a.approved = true
      · simp only [ha, if_pos]
        simpa using ih
      · have ha2 : a.approved = false := Bool.not_eq_true _ |>.mp ha
        simp only [ha2, Bool.false_eq_true, if_false, List.length_cons, ih]
        omega

theorem pendingReqs_length (anns : List RAnn) (cats selected : List Nat) :
    (pendingReqs anns cats selected).length = selectedPendingCount anns cats selected := by
  induction selected with
  | nil => rfl
  | cons img rest ih =>
    unfold pendingReqs selectedPendingCount
    rw [List.length_append, rowReqs_length, ih]


/-- Marking preserves the row/column keys, so cell lookup commutes with a
batch of approvals. -/
theorem cellFor_map_markIf (ids : List Nat) (img c : Nat) :
    ∀ anns : List RAnn,
      cellFor (anns.map (markIf ids)) img c = (cellFor anns img c).map (markIf ids) := by
  intro anns
  induction anns with
  | nil => rfl
  | cons a rest ih =>
    have hpred : ((markIf ids a).imageId == img && (markIf ids a).categoryId == c) =
        (a.imageId == img && a.categoryId == c) := by
      unfold markIf
      split <;> rfl
    rw [List.map_cons]
    unfold cellFor
    rw [hpred]
    by_cases hp : (a.imageId == img && a.categoryId == c) = true
    · rw [if_pos hp, if_pos hp]
      rfl
    · rw [if_neg hp, if_neg hp]
      exact ih

theorem cellFor_mem (img c : Nat) (a : RAnn) :
    ∀ anns : List RAnn, cellFor anns img c = some a → a ∈ anns := by
  intro anns
  induction anns with
  | nil => intro h; cases h
  | cons b rest ih =>
    intro h
    unfold cellFor at h
    by_cases hp : (b.imageId == img && b.categoryId == c) = true
    · rw [if_pos hp] at h
      rw [← Option.some.inj h]
      exact List.mem_cons_self _ _
    · rw [if_neg hp] at h
      exact List.mem_cons_of_mem _ (ih h)

/-- A pending cell in a walked column contributes its id to the row's
request list. -/
theorem mem_rowReqs_of (anns : List RAnn) (img c : Nat) (a : RAnn)
    (hcell : cellFor anns img c = some a) (hpend : a.approved = false) :
    ∀ cats : List Nat, c ∈ cats → a.id ∈ rowReqs anns cats img := by
  intro cats hc
  induction cats with
  | nil => cases hc
  | cons c0 rest ih =>
    unfold rowReqs
    rcases List.mem_cons.mp hc with rfl | hmem
    · simp only [hcell, hpend, Bool.false_eq_true, if_false]
      exact List.mem_cons_self _ _
    · cases hcf : cellFor anns img c0 with
      | none =>
        simp only [hcf]
        exact ih hmem
      | some b =>
        by_cases hb : b.approved = true
        · simp only [hcf, hb, if_true]
          exact ih hmem
        · have hb2 : b.approved = false := Bool.not_eq_true _ |>.mp hb
          simp only [hcf, hb2, Bool.false_eq_true, if_false]
          exact List.mem_cons_of_mem _ (ih hmem)

theorem mem_pendingReqs_of (anns : List RAnn) (cats : List Nat) (img c : Nat) (a : RAnn)
    (hc : c ∈ cats) (hcell : cellFor anns img c = some a) (hpend : a.approved = false) :
    ∀ selected : List Nat, img ∈ selected → a.id ∈ pendingReqs anns cats selected := by
  intro selected himg
  induction selected with
  | nil => cases himg
  | cons i0 rest ih =>
    unfold pendingReqs
    rw [List.mem_append]
    rcases List.mem_cons.mp himg with rfl | hmem
    · exact Or.inl (mem_rowReqs_of anns img c a hcell hpend cats hc)
    · exact Or.inr (ih hmem)

/-- Conversely, every id in a row's request list comes from a stored
pending row. -/
theorem mem_rowReqs_elim (anns : List RAnn) (img : Nat) (x : Nat) :
    ∀ cats : List Nat, x ∈ rowReqs anns cats img →
      ∃ a, a ∈ anns ∧ a.id = x ∧ a.approved = false := by
  intro cats
  induction cats with
  | nil => intro h; cases h
  | cons c rest ih =>
    intro h
    unfold rowReqs at h
    cases hcf : cellFor anns img c with
    | none =>
      simp only [hcf] at h
      exact ih h
    | some b =>
      by_cases hb : b.approved = true
      · simp only [hcf, hb, if_true] at h
        exact ih h
      · have hb2 : b.approved = false := Bool.not_eq_true _ |>.mp hb
        simp only [hcf, hb2, Bool.false_eq_true, if_false] at h
        rcases List.mem_cons.mp h with rfl | hmem
        · exact ⟨b, cellFor_mem img c b anns hcf, rfl, hb2⟩
        · exact ih hmem

theorem mem_pendingReqs_elim (anns : List RAnn) (cats : List Nat) (x : Nat) :
    ∀ selected : List Nat, x ∈ pendingReqs anns cats selected →
      ∃ a, a ∈ anns ∧ a.id = x ∧ a.approved = false := by
  intro selected
  induction selected with
  | nil => intro h; cases h
  | cons img rest ih =>
    intro h
    unfold pendingReqs at h
    rcases List.mem_append.mp h with h1 | h2
    · exact mem_rowReqs_elim anns img x cats h1
    · exact ih h2

/-- After the batch of approvals, every walked cell under the selected
rows is approved: the re-run of one row collects nothing. -/
theorem rowReqs_marked_nil (anns : List RAnn) (cats selected : List Nat) (img : Nat)
    (himg : img ∈ selected) :
    ∀ sub : List Nat, (∀ c ∈ sub, c ∈ cats) →
      rowReqs (anns.map (markIf (pendingReqs anns cats selected))) sub img = [] := by
  intro sub
  induction sub with
  | nil => intro _; rfl
  | cons c rest ih =>
    intro hsub
    unfold rowReqs
    rw [cellFor_map_markIf]
    cases hcf : cellFor anns img c with
    | none =>
      simp only [hcf, Option.map_none']
      exact ih (fun x hx => hsub x (List.mem_cons_of_mem _ hx))
    | some b =>
      simp only [hcf, Option.map_some']
      have happ : (markIf (pendingReqs anns cats selected) b).approved = true := by
        by_cases hb : b.approved = true
        · unfold markIf
          split
          · rfl
          · exact hb
        · have hb2 : b.approved = false := Bool.not_eq_true _ |>.mp hb
          have hid : b.id ∈ pendingReqs anns cats selected :=
            mem_pendingReqs_of anns cats img c b (hsub c (List.mem_cons_self _ _)) hcf hb2
              selected himg
          unfold markIf
          rw [if_pos (natContainsOfMem _ _ hid)]
      rw [happ]
      simp only [if_true]
      exact ih (fun x hx => hsub x (List.mem_cons_of_mem _ hx))

theorem pendingReqs_marked_nil (anns : List RAnn) (cats selected : List Nat) :
    ∀ sub : List Nat, (∀ x ∈ sub, x ∈ selected) →
      pendingReqs (anns.map (markIf (pendingReqs anns cats selected))) cats sub = [] := by
  intro sub
  induction sub with
  | nil => intro _; rfl
  | cons img rest ih =>
    intro hsub
    unfold pendingReqs
    rw [rowReqs_marked_nil anns cats selected img (hsub img (List.mem_cons_self _ _)) cats
      (fun c hc => hc), ih (fun x hx => hsub x (List.mem_cons_of_mem _ hx))]
    rfl

/-- C6.  handleBulkApprove over selected images issues exactly as many
approvals as the pending annotations the button counts, its server effect
marks exactly the requested rows approved (approved or absent cells are
untouched, and already-approved rows survive unchanged), and re-running
over the same image set issues zero approvals and is not an error. -/
theorem c6_bulk_approve_exact_idempotent (anns : List RAnn) (cats selected : List Nat) :
    ((handleBulkApprove anns cats selected).2).length =
        selectedPendingCount anns cats selected ∧
    (handleBulkApprove anns cats selected).1 =
        anns.map (markIf (handleBulkApprove anns cats selected).2) ∧
    (∀ x ∈ (handleBulkApprove anns cats selected).2,
        ∃ a, a ∈ anns ∧ a.id = x ∧ a.approved = false) ∧
    (∀ a ∈ anns, a.approved = true → a ∈ (handleBulkApprove anns cats selected).1) ∧
    handleBulkApprove (handleBulkApprove anns cats selected).1 cats selected =
        ((handleBulkApprove anns cats selected).1, []) ∧
    (∀ fails, (bulkApproveWith (handleBulkApprove anns cats selected).1 cats selected
        fails).2 = BulkReport.ok) := by
  have hfst : (handleBulkApprove anns cats selected).1 =
      anns.map (markIf (pendingReqs anns cats selected)) := by
    show applyApprovals anns (pendingReqs anns cats selected) = _
    exact applyApprovals_char _ _
  have hsnd : (handleBulkApprove anns cats selected).2 = pendingReqs anns cats selected := rfl
  have hnil : pendingReqs (anns.map (markIf (pendingReqs anns cats selected)))
      cats selected = [] :=
    pendingReqs_marked_nil anns cats selected selected (fun x hx => hx)
  refine ⟨?_, ?_, ?_, ?_, ?_, ?_⟩
  · rw [hsnd]
    exact pendingReqs_length anns cats selected
  · rw [hfst, hsnd]
  · rw [hsnd]
    exact fun x hx => mem_pendingReqs_elim anns cats x selected hx
  · intro a ha happ
    rw [hfst]
    exact markIf_approved_eq (pendingReqs anns cats selected) a happ ▸
      List.mem_map_of_mem _ ha
  · rw [hfst]
    unfold handleBulkApprove
    rw [hnil]
    rfl
  · intro fails
    show (if (pendingReqs (handleBulkApprove anns cats selected).1 cats selected).any fails
        then BulkReport.someFailed else BulkReport.ok) = BulkReport.ok
    rw [hfst, hnil]
    rfl

/-- C5 counterexample: two runs that differ in which approve call fails
produce the same user-visible result (the catch branch's fixed message),
so the result cannot report the set of annotation ids that did not
succeed; the successful approval still commits (no rollback). -/
theorem c5_counterexample :
    (bulkApproveWith annsC5 [0] [10, 20] (fun x => x == 1)).2 =
      (bulkApproveWith annsC5 [0] [10, 20] (fun x => x == 2)).2 ∧
    failedIds annsC5 [0] [10, 20] (fun x => x == 1) ≠
      failedIds annsC5 [0] [10, 20] (fun x => x == 2) ∧
    (bulkApproveWith annsC5 [0] [10, 20] (fun x => x == 1)).2 = BulkReport.someFailed ∧
    (bulkApproveWith annsC5 [0] [10, 20] (fun x => x == 1)).1 =
      [{ id := 1, imageId := 10, categoryId := 0, approved := false },
       { id := 2, imageId := 20, categoryId := 0, approved := true }] := by
  decide

/-- C5 (amended).  Bulk approval decomposes into independent per-annotation
approvals: every request that does not fail commits, whatever else fails
(no global rollback), and the run reports failure exactly when some
request failed — but only as a generic message, not as the set of failed
annotation ids. -/
theorem c5_bulk_independent_generic_report (anns : List RAnn) (cats selected : List Nat)
    (fails : Nat → Bool) :
    (bulkApproveWith anns cats selected fails).1 =
      anns.map (markIf ((pendingReqs anns cats selected).filter (fun x => ! fails x))) ∧
    ((bulkApproveWith anns cats selected fails).2 = BulkReport.ok ↔
      ∀ x ∈ pendingReqs anns cats selected, fails x = false) := by
  constructor
  · show applyApprovals anns _ = _
    exact applyApprovals_char _ _
  · show (if (pendingReqs anns cats selected).any fails then BulkReport.someFailed
        else BulkReport.ok) = BulkReport.ok ↔ _
    by_cases hany : (pendingReqs anns cats selected).any fails = true
    · rw [if_pos hany]
      constructor
      · intro hcon
        exact BulkReport.noConfusion hcon
      · intro hall
        rw [List.any_eq_true] at hany
        obtain ⟨x, hx, hfx⟩ := hany
        rw [hall x hx] at hfx
        exact absurd hfx (by simp)
    · rw [if_neg hany]
      constructor
      · intro _ x hx
        by_cases hfx : fails x = true
        · exact absurd (List.any_eq_true.mpr ⟨x, hx, hfx⟩) hany
        · exact Bool.not_eq_true _ |>.mp hfx
      · intro _
        rfl

/-- When every category is exempt (completed by another annotator with no
local pending entry) or locally selected, the validation loop collects no
missing names. -/
theorem missingFor_nil_of (pcs : List (Nat × Pending10)) :
    ∀ cats : List Cat10,
      (∀ cat ∈ cats,
        (cat.completedByOther = true ∧ lookupPending pcs cat.id = none) ∨
        ∃ p, lookupPending pcs cat.id = some p ∧ p.selectedOptionIds ≠ []) →
      missingFor cats pcs = [] := by
  intro cats
  induction cats with
  | nil => intro _; rfl
  | cons cat rest ih =>
    intro h
    unfold missingFor
    rcases h cat (List.mem_cons_self _ _) with ⟨hco, hnone⟩ | ⟨p, hp, hne⟩
    · rw [if_pos (by rw [hco, hnone]; rfl)]
      exact ih (fun c hc => h c (List.mem_cons_of_mem _ hc))
    · have hcond : (cat.completedByOther && (lookupPending pcs cat.id).isNone) = false := by
        rw [hp]
        simp
      simp only [hcond, Bool.false_eq_true, if_false]
      simp only [hp]
      have hempty : p.selectedOptionIds.isEmpty = false := by
        cases hl : p.selectedOptionIds with
        | nil => exact absurd hl hne
        | cons a l => rfl
      simp only [hempty, Bool.false_eq_true, if_false]
      exact ih (fun c hc => h c (List.mem_cons_of_mem _ hc))

/-- A category that is not exempt and has no (or an empty) local selection
is named in the missing list. -/
theorem mem_missingFor_of (pcs : List (Nat × Pending10)) (cat : Cat10)
    (hne : ¬(cat.completedByOther = true ∧ lookupPending pcs cat.id = none))
    (hempty : lookupPending pcs cat.id = none ∨
      ∃ p, lookupPending pcs cat.id = some p ∧ p.selectedOptionIds = []) :
    ∀ cats : List Cat10, cat ∈ cats → cat.name ∈ missingFor cats pcs := by
  intro cats hmem
  induction cats with
  | nil => cases hmem
  | cons c0 rest ih =>
    unfold missingFor
    rcases List.mem_cons.mp hmem with rfl | hmem2
    · have hcond : (cat.completedByOther && (lookupPending pcs cat.id).isNone) = false := by
        rcases hempty with hnone | ⟨p, hp, _⟩
        · rw [hnone]
          cases hco : cat.completedByOther with
          | false => rfl
          | true => exact absurd ⟨hco, hnone⟩ hne
        · rw [hp]
          simp
      simp only [hcond, Bool.false_eq_true, if_false]
      rcases hempty with hnone | ⟨p, hp, hplist⟩
      · simp only [hnone]
        exact List.mem_cons_self _ _
      · simp only [hp]
        have hpe : p.selectedOptionIds.isEmpty = true := by
          rw [hplist]
          rfl
        simp only [hpe, if_true]
        exact List.mem_cons_self _ _
    · by_cases hc : (c0.completedByOther && (lookupPending pcs c0.id).isNone) = true
      · rw [if_pos hc]
        exact ih hmem2
      · rw [if_neg hc]
        cases hp : lookupPending pcs c0.id with
        | none =>
          simp only [hp]
          exact List.mem_cons_of_mem _ (ih hmem2)
        | some p =>
          by_cases hpe : p.selectedOptionIds.isEmpty = true
          · simp only [hp, hpe, if_true]
            exact List.mem_cons_of_mem _ (ih hmem2)
          · have hpe2 : p.selectedOptionIds.isEmpty = false := Bool.not_eq_true _ |>.mp hpe
            simp only [hp, hpe2, Bool.false_eq_true, if_false]
            exact ih hmem2

/-- An unblocked handleSave call reduces to the validation check. -/
theorem handleSave_unblocked (st : PageState) (d : PageData) (hd : st.data = some d)
    (hsaving : st.saving = false) (hedit : d.canEdit = true) (himp : d.isImproper = false) :
    handleSave st = if (missingFor d.categories st.pendingChanges).isEmpty = true
      then SaveOutcome10.write st.pendingChanges
      else SaveOutcome10.invalid (missingFor d.categories st.pendingChanges)
        (errorText (missingFor d.categories st.pendingChanges)) := by
  unfold handleSave
  rw [hsaving]
  simp only [Bool.false_eq_true, if_false, hd, hedit, himp, Bool.not_true, Bool.or_self,
    validateAllCategoriesSelected]
  by_cases hm : (missingFor d.categories st.pendingChanges).isEmpty = true
  · simp [hm]
  · have hm2 : (missingFor d.categories st.pendingChanges).isEmpty = false :=
      Bool.not_eq_true _ |>.mp hm
    simp [hm2]

/-- C10.  In the per-image page, a category completed by another annotator
with no locally pending entry is exempt from the at-least-one-option
requirement, so handleSave issues its write even though that category has
no selection; any other category with a missing or empty selection makes
handleSave set the error naming the missing categories and issue no
write. -/
theorem c10_image_page_validation (st : PageState) (d : PageData)
    (hd : st.data = some d) (hsaving : st.saving = false)
    (hedit : d.canEdit = true) (himp : d.isImproper = false) :
    ((∀ cat ∈ d.categories,
        (cat.completedByOther = true ∧ lookupPending st.pendingChanges cat.id = none) ∨
        ∃ p, lookupPending st.pendingChanges cat.id = some p ∧ p.selectedOptionIds ≠ []) →
      handleSave st = SaveOutcome10.write st.pendingChanges) ∧
    (∀ cat ∈ d.categories,
      ¬(cat.completedByOther = true ∧ lookupPending st.pendingChanges cat.id = none) →
      (lookupPending st.pendingChanges cat.id = none ∨
        ∃ p, lookupPending st.pendingChanges cat.id = some p ∧ p.selectedOptionIds = []) →
      handleSave st = SaveOutcome10.invalid (missingFor d.categories st.pendingChanges)
          (errorText (missingFor d.categories st.pendingChanges)) ∧
        cat.name ∈ missingFor d.categories st.pendingChanges ∧
        writesOf (handleSave st) = []) := by
  constructor
  · intro hall
    have hm : missingFor d.categories st.pendingChanges = [] :=
      missingFor_nil_of st.pendingChanges d.categories hall
    rw [handleSave_unblocked st d hd hsaving hedit himp, hm]
    rfl
  · intro cat hmem hne hempty
    have hname : cat.name ∈ missingFor d.categories st.pendingChanges :=
      mem_missingFor_of st.pendingChanges cat hne hempty d.categories hmem
    have hm : (missingFor d.categories st.pendingChanges).isEmpty = false := by
      cases hcase : missingFor d.categories st.pendingChanges with
      | nil =>
        rw [hcase] at hname
        cases hname
      | cons a l => rfl
    refine ⟨?_, hname, ?_⟩
    · rw [handleSave_unblocked st d hd hsaving hedit himp, hm]
      simp
    · rw [handleSave_unblocked st d hd hsaving hedit himp, hm]
      simp [writesOf]

/-- C10 witness: on the concrete page state, the category completed by
another annotator (no local entry) is exempt and the save goes through. -/
theorem c10_witness : handleSave stW = SaveOutcome10.write stW.pendingChanges :=
  (c10_image_page_validation stW dW rfl rfl rfl rfl).1 (by
    intro cat hmem
    rcases List.mem_cons.mp hmem with rfl | hmem2
    · exact Or.inl ⟨rfl, rfl⟩
    · rcases List.mem_cons.mp hmem2 with rfl | hmem3
      · exact Or.inr ⟨{ selectedOptionIds := [3] }, rfl, by decide⟩
      · cases hmem3)
